import Mathlib

/-!
Verification of the buffet command/state engine
(`src/buffet/manager.cc`, `src/buffet/weave_error_conversion.h`,
`src/buffet/commands/command_definition.h`).

Pure functions of the source are embedded directly; the collaborator
classes whose implementations are not part of this excerpt
(StateChangeQueue, CommandInstance, CommandDictionary, StateManager)
are modelled from the specification, as marked on each definition.
-/

namespace Buffet

/-! ## JSON-like values -/

/-- JSON-like leaf values used for command parameters, progress, results and
state properties (tagged variant over int, number, bool, string per the
design notes in the spec). -/
inductive JVal where
  | jint : Int → JVal
  | jnum : Rat → JVal
  | jbool : Bool → JVal
  | jstr : String → JVal
  deriving Repr, DecidableEq

/-- A flat JSON object: an association list from property name to value. -/
abbrev ValueMap := List (String × JVal)

/-- First-match lookup in an association list keyed by strings. -/
def alookup {α : Type} : List (String × α) → String → Option α
  | [], _ => none
  | (k, v) :: rest, n => if k = n then some v else alookup rest n

/-- In-place update of the first binding of a key (appending when absent),
mirroring map-style assignment of the current-value maps. -/
def aupdate {α : Type} : List (String × α) → String → α → List (String × α)
  | [], n, v => [(n, v)]
  | (k, w) :: rest, n, v =>
    if k = n then (n, v) :: rest else (k, w) :: aupdate rest n v

/-- Last-match lookup: later bindings shadow earlier ones, matching the
result of applying a list of writes in order. -/
def lastLookup {α : Type} : List (String × α) → String → Option α
  | [], _ => none
  | (k, v) :: rest, n =>
    match lastLookup rest n with
    | some w => some w
    | none => if k = n then some v else none

/-! ## Object schemas

Modelled from the spec (section 3 and 4.1): a schema node is a tagged union
over value types with type-specific constraints (numeric bounds, string
enumerations); the repository's full ObjectSchema implementation is not part
of this excerpt. The fragment below covers the constraints the claims
exercise. -/

/-- Modelled from the spec: type of a single schema property with its
constraints (inclusive integer bounds, allowed string values). -/
inductive PropType where
  | tInt : Option Int → Option Int → PropType
  | tNum : PropType
  | tBool : PropType
  | tStr : Option (List String) → PropType
  deriving Repr, DecidableEq

/-- Modelled from the spec: checks one value against one schema node
(type match, inclusive bound check, enum membership). -/
def checkValue : PropType → JVal → Bool
  | .tInt mn mx, .jint n =>
    (match mn with | none => true | some lo => decide (lo ≤ n)) &&
    (match mx with | none => true | some hi => decide (n ≤ hi))
  | .tNum, .jnum _ => true
  | .tBool, .jbool _ => true
  | .tStr none, .jstr _ => true
  | .tStr (some allowed), .jstr s => allowed.contains s
  | _, _ => false

/-- Modelled from the spec: an object schema is a set of required, named,
typed properties. -/
abbrev ObjectSchema := List (String × PropType)

/-- Helper for Validate: first required property that is missing or whose
value fails its node check, as an error path. -/
def validateProps : ObjectSchema → ValueMap → Option String
  | [], _ => none
  | (n, t) :: rest, v =>
    match alookup v n with
    | none => some n
    | some w => if checkValue t w then validateProps rest v else some n

/-- Helper for Validate: first property of the value that the schema does not
declare (unknown properties are rejected). -/
def unknownProp (schema : ObjectSchema) (v : ValueMap) : Option String :=
  match v.find? (fun p => (alookup schema p.1).isNone) with
  | some p => some p.1
  | none => none

/-- Modelled from the spec (4.1 Validate): every required property present
and valid, unknown properties rejected; returns the first violation found
with a path locator, or none. -/
def ObjectSchema.Validate (schema : ObjectSchema) (v : ValueMap) : Option String :=
  match validateProps schema v with
  | some p => some p
  | none => unknownProp schema v

/-! ## Error kinds (spec section 7) -/

/-- Error kinds of the spec's error handling design. -/
inductive ErrKind where
  | parseError
  | typeError
  | validationError : String → ErrKind
  | duplicateNameError
  | invalidStateError
  | notFoundError : String → ErrKind
  deriving Repr, DecidableEq

/-! ## CommandInstance (modelled from the spec, sections 3 and 4.3) -/

/-- Command execution states. -/
inductive CmdState where
  | queued
  | inProgress
  | paused
  | done
  | cancelled
  | aborted
  | error
  deriving Repr, DecidableEq

/-- The four outcome states are terminal. -/
def CmdState.IsTerminal : CmdState → Bool
  | .done => true
  | .cancelled => true
  | .aborted => true
  | .error => true
  | _ => false

/-- Origin of a command. -/
inductive Origin where
  | originLocal
  | originCloud
  deriving Repr, DecidableEq

/-- Modelled from the spec: a validated in-flight occurrence of a command.
The repository's CommandInstance implementation is not part of this
excerpt. -/
structure CommandInstance where
  id : String
  name : String
  component : String
  origin : Origin
  parameters : ValueMap
  progress : ValueMap
  results : ValueMap
  state : CmdState
  errorInfo : Option (String × String)
  deriving Repr, DecidableEq

/-- Modelled from the spec (4.3): SetProgress is accepted only while
InProgress or Paused and replaces the progress map; an operation illegal for
the current state fails with InvalidStateError and leaves the instance
unchanged. -/
def CommandInstance.SetProgress (c : CommandInstance) (p : ValueMap) :
    CommandInstance × Option ErrKind :=
  if c.state = .inProgress ∨ c.state = .paused then
    ({ c with progress := p }, none)
  else
    (c, some .invalidStateError)

/-- Modelled from the spec (4.3): Complete is accepted only from
InProgress/Paused, validates the results against the result schema, and on
success transitions to Done freezing the results; a validation failure
returns ValidationError with the offending path and the instance is not
mutated. -/
def CommandInstance.Complete (c : CommandInstance) (resultSchema : ObjectSchema)
    (res : ValueMap) : CommandInstance × Option ErrKind :=
  if c.state = .inProgress ∨ c.state = .paused then
    match resultSchema.Validate res with
    | some path => (c, some (.validationError path))
    | none => ({ c with state := .done, results := res }, none)
  else
    (c, some .invalidStateError)

/-- Modelled from the spec (4.3): Abort transitions to Aborted from any
non-terminal state, recording the error code and message; calling it on an
already-terminal instance fails. -/
def CommandInstance.Abort (c : CommandInstance) (code message : String) :
    CommandInstance × Option ErrKind :=
  if c.state.IsTerminal then
    (c, some .invalidStateError)
  else
    ({ c with state := .aborted, errorInfo := some (code, message) }, none)

/-- Modelled from the spec (4.3): Cancel transitions to Cancelled from any
non-terminal state; calling it on an already-terminal instance fails. -/
def CommandInstance.Cancel (c : CommandInstance) :
    CommandInstance × Option ErrKind :=
  if c.state.IsTerminal then
    (c, some .invalidStateError)
  else
    ({ c with state := .cancelled }, none)

/-! ## CommandDefinition / CommandDictionary -/

/-- A command definition: category plus parameter and result schemas
(command_definition.h). -/
structure CommandDef where
  category : String
  parameters : ObjectSchema
  results : ObjectSchema
  deriving Repr, DecidableEq

/-- The dictionary: mapping from fully qualified command name to its
definition. -/
abbrev CommandDictionary := List (String × CommandDef)

/-- FindCommand: dictionary lookup by command name. -/
def CommandDictionary.FindCommand (d : CommandDictionary) (n : String) :
    Option CommandDef :=
  alookup d n

/-- One category's parsed definitions: (name, parameter schema, result
schema) triples. -/
abbrev CategoryDefs := List (String × ObjectSchema × ObjectSchema)

/-- Modelled from the spec (4.2 and 7): LoadCommands parses one category's
command definitions and replaces only that category's entries; names must be
unique across all categories, so a name already registered in another
category (or repeated in the new definitions) is a hard failure that leaves
the previous contents intact. The repository's CommandDictionary
implementation is not part of this excerpt. -/
def CommandDictionary.LoadCommands (d : CommandDictionary) (category : String)
    (defs : CategoryDefs) : Except ErrKind CommandDictionary :=
  let kept := d.filter (fun p => p.2.category ≠ category)
  if (defs.map Prod.fst).Nodup ∧ ∀ p ∈ defs, alookup kept p.1 = none then
    .ok (kept ++ defs.map (fun p => (p.1, ⟨category, p.2.1, p.2.2⟩)))
  else
    .error .duplicateNameError

/-- Modelled from the spec (4.2): removing a category drops exactly that
category's entries. -/
def CommandDictionary.RemoveCategory (d : CommandDictionary)
    (category : String) : CommandDictionary :=
  d.filter (fun p => p.2.category ≠ category)

/-- Modelled from the spec (4.2 and 4.4): a successful dictionary load
invokes the registered change callback exactly once, after the mutation is
fully applied; the returned list records each dictionary the observer is
shown (Manager::OnCommandDefsChanged serializes the complete dictionary it
observes). A failed load is not a logical change and fires no callback. -/
def CommandManager.LoadCommandsNotify (d : CommandDictionary)
    (category : String) (defs : CategoryDefs) :
    Except ErrKind CommandDictionary × List CommandDictionary :=
  match d.LoadCommands category defs with
  | .ok d2 => (.ok d2, [d2])
  | .error e => (.error e, [])

/-- Modelled from the spec (4.2 and 4.4): removing a category invokes the
change callback exactly once with the fully applied dictionary. -/
def CommandManager.RemoveCategoryNotify (d : CommandDictionary)
    (category : String) : CommandDictionary × List CommandDictionary :=
  (d.RemoveCategory category, [d.RemoveCategory category])

/-- Modelled from the spec (4.4) and Manager::Start (manager.cc): Startup
loads the built-in (base) category first and the optional test/override
category second, in that order. -/
def CommandManager.Startup (baseDefs testDefs : CategoryDefs) :
    Except ErrKind CommandDictionary :=
  match CommandDictionary.LoadCommands [] "base" baseDefs with
  | .error e => .error e
  | .ok d1 => d1.LoadCommands "test" testDefs

/-! ## FromPayload / Manager::AddCommand -/

/-- A command ingress payload (spec section 6): name, component, origin and
a parameter object. -/
structure Payload where
  name : String
  component : String
  origin : Origin
  parameters : ValueMap
  deriving Repr, DecidableEq

/-- Modelled from the spec (4.3 FromPayload): looks up the command name in
the dictionary, validates the payload's parameters against the definition's
parameter schema, and on success constructs an instance in Queued state with
origin and component taken from the payload. The repository's
CommandInstance::FromJson is not part of this excerpt. -/
def CommandInstance.FromJson (dict : CommandDictionary) (p : Payload) :
    Except ErrKind CommandInstance :=
  match dict.FindCommand p.name with
  | none => .error (.notFoundError p.name)
  | some cd =>
    match cd.parameters.Validate p.parameters with
    | some path => .error (.validationError path)
    | none =>
      .ok { id := "", name := p.name, component := p.component,
            origin := p.origin, parameters := p.parameters,
            progress := [], results := [], state := .queued,
            errorInfo := none }

/-- Digit-extraction loop with an explicit fuel bound (the fuel only caps
the recursion depth; any fuel at least the value itself is enough). -/
def decCharsAux : Nat → Nat → List Char
  | 0, _ => []
  | _ + 1, 0 => []
  | fuel + 1, n + 1 =>
    Nat.digitChar ((n + 1) % 10) :: decCharsAux fuel ((n + 1) / 10)

/-- Decimal digit characters of a natural number, least significant first
(empty for zero). -/
def decChars (n : Nat) : List Char := decCharsAux n n

/-- The decimal rendering `std::to_string` produces for a natural number. -/
def natToDecimal (n : Nat) : String :=
  if n = 0 then String.mk [Nat.digitChar 0] else String.mk (decChars n).reverse

/-- Numeric value of a little-endian decimal digit-character list (used to
invert `decChars`). -/
def decValue : List Char → Nat
  | [] => 0
  | c :: rest => (c.toNat - 48) + 10 * decValue rest

/-- The manager-side state touched by Manager::AddCommand: the static id
counter and the CommandManager's live command set. -/
structure ManagerState where
  nextId : Nat
  commands : List CommandInstance
  deriving Repr, DecidableEq

/-- Manager::AddCommand (manager.cc lines 172-195): parse the JSON command
(parsing by the external base::JSONReader is abstracted as `parse`), build
an instance via FromJson, and only on success increment the id counter,
assign the stringified id, and add the instance to the live set; every
failure replies with the error and leaves counter and live set untouched. -/
def Manager.AddCommand (parse : String → Option Payload)
    (dict : CommandDictionary) (st : ManagerState) (jsonCommand : String) :
    ManagerState × Except ErrKind String :=
  match parse jsonCommand with
  | none => (st, .error .parseError)
  | some p =>
    match CommandInstance.FromJson dict p with
    | .error e => (st, .error e)
    | .ok inst =>
      let idStr := natToDecimal (st.nextId + 1)
      ({ nextId := st.nextId + 1,
         commands := st.commands ++ [{ inst with id := idStr }] },
       .ok idStr)

/-- A sequence of Manager::AddCommand calls, returning the final manager
state and the reply of each call in order. -/
def Manager.RunAddCommands (parse : String → Option Payload)
    (dict : CommandDictionary) (st : ManagerState) :
    List String → ManagerState × List (Except ErrKind String)
  | [] => (st, [])
  | j :: rest =>
    let r := Manager.AddCommand parse dict st j
    let rr := Manager.RunAddCommands parse dict r.1 rest
    (rr.1, r.2 :: rr.2)

/-- The ids of the successful replies of a call sequence. -/
def successIds (rs : List (Except ErrKind String)) : List String :=
  rs.filterMap (fun r => match r with | .ok i => some i | .error _ => none)

/-! ## StateChangeQueue (modelled from the spec, section 4.5) -/

/-- Max of 100 state update events should be enough in the queue
(manager.cc line 36). -/
def kMaxStateChangeQueueSize : Nat := 100

/-- A state change record: timestamp plus the mapping of property names to
new values. -/
structure StateChangeRecord where
  timestamp : Nat
  changes : ValueMap
  deriving Repr, DecidableEq

/-- The bounded queue of state change records, oldest first. -/
structure StateChangeQueue where
  maxQueueSize : Nat
  records : List StateChangeRecord
  deriving Repr, DecidableEq

/-- Coalescing loop with an explicit fuel bound (each step shrinks the list
by one, so fuel at least the list length is enough). -/
def coalesceSteps : Nat → Nat → List StateChangeRecord → List StateChangeRecord
  | 0, _, l => l
  | fuel + 1, cap, r1 :: r2 :: rest =>
    if rest.length + 2 > cap then
      coalesceSteps fuel cap ({ timestamp := r2.timestamp,
                                changes := r1.changes ++ r2.changes } :: rest)
    else
      r1 :: r2 :: rest
  | _ + 1, _, l => l

/-- Modelled from the spec (4.5): while the queue is over capacity, the
oldest record's changes are coalesced into its successor rather than
dropped; the successor's bindings come later in the concatenation, so the
newer value of a property wins (last-writer-wins per property). -/
def coalesceRecords (cap : Nat) (l : List StateChangeRecord) :
    List StateChangeRecord :=
  coalesceSteps l.length cap l

/-- Modelled from the spec (4.5): NotifyPropertiesUpdated appends one record
and restores the capacity bound by coalescing; the repository's
StateChangeQueue implementation is not part of this excerpt (manager.cc
constructs it with kMaxStateChangeQueueSize). -/
def StateChangeQueue.NotifyPropertiesUpdated (q : StateChangeQueue) (t : Nat)
    (changes : ValueMap) : StateChangeQueue :=
  { q with records := coalesceRecords q.maxQueueSize (q.records ++ [⟨t, changes⟩]) }

/-- Modelled from the spec (4.5): GetAllChanges returns everything buffered
since the last drain in chronological order and clears the queue. -/
def StateChangeQueue.GetAllChanges (q : StateChangeQueue) :
    List StateChangeRecord × StateChangeQueue :=
  (q.records, { q with records := [] })

/-- A queue with the given capacity and nothing buffered (the state right
after a drain). -/
def emptyQueue (cap : Nat) : StateChangeQueue :=
  { maxQueueSize := cap, records := [] }

/-- A sequence of NotifyPropertiesUpdated calls. -/
def StateChangeQueue.RunNotify (q : StateChangeQueue) :
    List (Nat × ValueMap) → StateChangeQueue
  | [] => q
  | (t, c) :: rest => (q.NotifyPropertiesUpdated t c).RunNotify rest

/-- All changes of a record list, in chronological order. -/
def mergedChanges (rs : List StateChangeRecord) : ValueMap :=
  (rs.map StateChangeRecord.changes).flatten

/-- The per-property last-writer-wins merge of a record list. -/
def mergedLookup (rs : List StateChangeRecord) (n : String) : Option JVal :=
  lastLookup (mergedChanges rs) n

/-! ## StateManager / Manager::UpdateState -/

/-- The current property values owned by the StateManager. -/
abbrev PropMap (α : Type) := List (String × α)

/-- Modelled from the spec (4.6): SetPropertyValue validates the value
against the property's declared schema (abstracted as the `valid`
predicate) and updates the current value map, failing with ValidationError
otherwise. -/
def StateManager.SetPropertyValue {α : Type} (valid : String → α → Bool)
    (m : PropMap α) (n : String) (v : α) : Option (PropMap α) :=
  if valid n v then some (aupdate m n v) else none

/-- The property-iteration loop of Manager::UpdateState (manager.cc lines
148-156): a failed SetPropertyValue is remembered but the remaining
properties are still updated; returns the final value map and the names of
the failed properties (the aggregated error). -/
def updateStateLoop {α : Type} (valid : String → α → Bool) (m : PropMap α) :
    List (String × α) → PropMap α × List String
  | [] => (m, [])
  | (n, v) :: rest =>
    match StateManager.SetPropertyValue valid m n v with
    | some m2 => updateStateLoop valid m2 rest
    | none =>
      let r := updateStateLoop valid m rest
      (r.1, n :: r.2)

/-- Manager::UpdateState (manager.cc lines 144-161): update every property
of the batch, then reply with the aggregated error iff any update failed,
and with success otherwise. -/
def Manager.UpdateState {α : Type} (valid : String → α → Bool) (m : PropMap α)
    (props : List (String × α)) : PropMap α × Except (List String) Unit :=
  let r := updateStateLoop valid m props
  (r.1, if r.2.isEmpty then .ok () else .error r.2)

/-- The last value written for a property by the valid writes of a batch. -/
def lastValidWrite {α : Type} (valid : String → α → Bool) :
    List (String × α) → String → Option α
  | [], _ => none
  | (k, v) :: rest, n =>
    match lastValidWrite valid rest n with
    | some w => some w
    | none => if k = n ∧ valid k v then some v else none

/-! ## ConvertError (weave_error_conversion.h) -/

/-- A chained error: domain, code, message, and optionally an inner
(earlier) error. Both the source and destination error types of the
ConvertError template have this shape. -/
inductive ChainedError where
  | leaf : String → String → String → ChainedError
  | wrap : String → String → String → ChainedError → ChainedError
  deriving Repr, DecidableEq

/-- GetInnerError: the wrapped inner error, if any. -/
def ChainedError.GetInnerError : ChainedError → Option ChainedError
  | .leaf _ _ _ => none
  | .wrap _ _ _ inner => some inner

/-- Error::AddTo: pushes a new outermost error onto the destination chain. -/
def ErrorAddTo (dest : Option ChainedError) (domain code message : String) :
    Option ChainedError :=
  match dest with
  | none => some (.leaf domain code message)
  | some e => some (.wrap domain code message e)

/-- ConvertError (weave_error_conversion.h lines 26-40): converts the inner
error first, then adds the current element's domain, code and message to the
destination chain (the location is copied too; the fresh program counter is
not modelled). -/
def ConvertError : ChainedError → Option ChainedError → Option ChainedError
  | .leaf d c m, dest => ErrorAddTo dest d c m
  | .wrap d c m inner, dest => ErrorAddTo (ConvertError inner dest) d c m

/-- The (domain, code, message) chain of an error, outermost first. -/
def errorChain : ChainedError → List (String × String × String)
  | .leaf d c m => [(d, c, m)]
  | .wrap d c m inner => (d, c, m) :: errorChain inner

/-- The chain of an optional error. -/
def optChain : Option ChainedError → List (String × String × String)
  | none => []
  | some e => errorChain e

/-! ## Manager::RegisterDevice -/

/-- A D-Bus variant value as received in the RegisterDevice parameter
dictionary. -/
inductive DBusVariant where
  | vstring : String → DBusVariant
  | vint : Int → DBusVariant
  | vbool : Bool → DBusVariant
  deriving Repr, DecidableEq

/-- IsTypeCompatible against std::string. -/
def DBusVariant.IsStringCompatible : DBusVariant → Bool
  | .vstring _ => true
  | _ => false

/-- Get against std::string (only meaningful on string variants). -/
def DBusVariant.getString : DBusVariant → String
  | .vstring s => s
  | _ => ""

/-- The reply of Manager::RegisterDevice. -/
inductive RegisterReply where
  | ok : String → RegisterReply
  | invalidArgs : String → RegisterReply
  | registrationFailed
  deriving Repr, DecidableEq

/-- The observable outcome of Manager::RegisterDevice: the string parameters
registration was invoked with (none when it was never attempted) and the
reply. -/
structure RegisterOutcome where
  attempted : Option (List (String × String))
  reply : RegisterReply
  deriving Repr, DecidableEq

/-- The parameter-conversion loop of Manager::RegisterDevice (manager.cc
lines 120-129): each value must be string-compatible; the first value that
is not stops the conversion. -/
def toStringParams : List (String × DBusVariant) →
    Option (List (String × String))
  | [] => some []
  | (n, v) :: rest =>
    match v with
    | .vstring s => (toStringParams rest).map (fun r => (n, s) :: r)
    | _ => none

/-- Manager::RegisterDevice (manager.cc lines 114-142): convert the
parameter dictionary to string parameters, replying with an invalid-args
error at the first non-string value without attempting registration; only
when every value is a string is registration invoked (abstracted as
`registerImpl` returning the device id, empty meaning failure). -/
def Manager.RegisterDevice (registerImpl : List (String × String) → String)
    (params : List (String × DBusVariant)) : RegisterOutcome :=
  match toStringParams params with
  | none => { attempted := none, reply := .invalidArgs "String value expected" }
  | some sp =>
    if registerImpl sp ≠ "" then
      { attempted := some sp, reply := .ok (registerImpl sp) }
    else
      { attempted := some sp, reply := .registrationFailed }

/-! ## Helper lemmas -/

theorem alookup_eq_none_iff {α : Type} (m : List (String × α)) (n : String) :
    alookup m n = none ↔ n ∉ m.map Prod.fst := by
  induction m with
  | nil => simp [alookup]
  | cons hd tl ih =>
    obtain ⟨k, v⟩ := hd
    by_cases h : k = n
    · subst h
      simp [alookup]
    · have h2 : ¬ n = k := fun heq => h heq.symm
      simp [alookup, h, h2, ih]

theorem alookup_append {α : Type} (l1 l2 : List (String × α)) (n : String) :
    alookup (l1 ++ l2) n =
      match alookup l1 n with
      | some v => some v
      | none => alookup l2 n := by
  induction l1 with
  | nil => simp [alookup]
  | cons hd tl ih =>
    obtain ⟨k, v⟩ := hd
    by_cases h : k = n <;> simp [alookup, h, ih]

theorem alookup_aupdate {α : Type} (m : List (String × α)) (k n : String)
    (v : α) :
    alookup (aupdate m k v) n = if k = n then some v else alookup m n := by
  induction m with
  | nil => simp [aupdate, alookup]
  | cons hd tl ih =>
    obtain ⟨k2, w⟩ := hd
    by_cases h2 : k2 = k
    · subst h2
      by_cases h : k2 = n <;> simp [aupdate, alookup, h]
    · by_cases h : k2 = n
      · subst h
        have : ¬ k = k2 := fun heq => h2 heq.symm
        simp [aupdate, alookup, h2, this]
      · simp [aupdate, alookup, h2, h, ih]

theorem optChain_ErrorAddTo (dest : Option ChainedError) (d c m : String) :
    optChain (ErrorAddTo dest d c m) = (d, c, m) :: optChain dest := by
  cases dest <;> rfl

theorem toStringParams_eq_none_iff (params : List (String × DBusVariant)) :
    toStringParams params = none ↔
      ∃ p ∈ params, p.2.IsStringCompatible = false := by
  induction params with
  | nil => simp [toStringParams]
  | cons hd tl ih =>
    obtain ⟨n, v⟩ := hd
    cases v <;>
      simp [toStringParams, DBusVariant.IsStringCompatible, ih, Option.map_eq_none']

theorem toStringParams_all_strings (params : List (String × DBusVariant))
    (h : ∀ p ∈ params, p.2.IsStringCompatible = true) :
    toStringParams params = some (params.map fun p => (p.1, p.2.getString)) := by
  induction params with
  | nil => simp [toStringParams]
  | cons hd tl ih =>
    obtain ⟨n, v⟩ := hd
    cases v with
    | vstring s =>
      have htl : ∀ p ∈ tl, p.2.IsStringCompatible = true := by
        intro p hp; exact h p (List.mem_cons_of_mem _ hp)
      simp [toStringParams, ih htl, DBusVariant.getString]
    | vint k =>
      have := h (n, .vint k) (List.mem_cons_self _ _)
      simp [DBusVariant.IsStringCompatible] at this
    | vbool b =>
      have := h (n, .vbool b) (List.mem_cons_self _ _)
      simp [DBusVariant.IsStringCompatible] at this

theorem updateStateLoop_lookup {α : Type} (valid : String → α → Bool)
    (props : List (String × α)) (m : PropMap α) (n : String) :
    alookup (updateStateLoop valid m props).1 n =
      match lastValidWrite valid props n with
      | some v => some v
      | none => alookup m n := by
  induction props generalizing m with
  | nil => simp [updateStateLoop, lastValidWrite]
  | cons hd tl ih =>
    obtain ⟨k, v⟩ := hd
    by_cases hv : valid k v
    · rw [show updateStateLoop valid m ((k, v) :: tl) =
          updateStateLoop valid (aupdate m k v) tl by
        simp [updateStateLoop, StateManager.SetPropertyValue, hv]]
      rw [ih]
      cases hlast : lastValidWrite valid tl n with
      | some w => simp [lastValidWrite, hlast]
      | none =>
        simp only [lastValidWrite, hlast]
        rw [alookup_aupdate]
        by_cases hk : k = n
        · subst hk
          simp [hv]
        · simp [hk, hv]
    · rw [show updateStateLoop valid m ((k, v) :: tl) =
          ((updateStateLoop valid m tl).1, k :: (updateStateLoop valid m tl).2) by
        simp [updateStateLoop, StateManager.SetPropertyValue, hv]]
      rw [ih]
      cases hlast : lastValidWrite valid tl n with
      | some w => simp [lastValidWrite, hlast]
      | none =>
        simp only [lastValidWrite, hlast]
        by_cases hk : k = n
        · subst hk
          simp [hv]
        · simp [hk, hv]

theorem updateStateLoop_failed {α : Type} (valid : String → α → Bool)
    (props : List (String × α)) (m : PropMap α) :
    (updateStateLoop valid m props).2 =
      (props.filter fun p => !valid p.1 p.2).map Prod.fst := by
  induction props generalizing m with
  | nil => simp [updateStateLoop]
  | cons hd tl ih =>
    obtain ⟨k, v⟩ := hd
    by_cases hv : valid k v <;>
      simp [updateStateLoop, StateManager.SetPropertyValue, hv, ih]

theorem loadCommands_ok_shape (d : CommandDictionary) (cat : String)
    (defs : CategoryDefs) (d2 : CommandDictionary)
    (h : d.LoadCommands cat defs = .ok d2) :
    d2 = (d.filter fun p => p.2.category ≠ cat) ++
        defs.map (fun p => (p.1, (⟨cat, p.2.1, p.2.2⟩ : CommandDef)))
  ∧ (defs.map Prod.fst).Nodup
  ∧ ∀ p ∈ defs, alookup (d.filter fun p => p.2.category ≠ cat) p.1 = none := by
  simp only [CommandDictionary.LoadCommands] at h
  split at h
  · rename_i hc
    refine ⟨?_, hc.1, hc.2⟩
    injection h with h2
    exact h2.symm
  · exact Except.noConfusion h

theorem loadCommands_ok_nodup (d : CommandDictionary) (cat : String)
    (defs : CategoryDefs) (hd : (d.map Prod.fst).Nodup) (d2 : CommandDictionary)
    (h : d.LoadCommands cat defs = .ok d2) : (d2.map Prod.fst).Nodup := by
  obtain ⟨hshape, hnd, hnone⟩ := loadCommands_ok_shape d cat defs d2 h
  subst hshape
  rw [List.map_append]
  apply List.Nodup.append
  · exact List.Nodup.sublist (List.Sublist.map Prod.fst (List.filter_sublist d)) hd
  · rw [List.map_map]
    exact hnd
  · intro a ha1 ha2
    rw [List.map_map] at ha2
    obtain ⟨p, hp, hpa⟩ := List.mem_map.mp ha2
    have hnp := hnone p hp
    rw [alookup_eq_none_iff] at hnp
    exact hnp (by rw [show p.1 = a from hpa]; exact ha1)

theorem alookup_mapped_defs (cat : String) (defs : CategoryDefs)
    (hnd : (defs.map Prod.fst).Nodup) :
    ∀ p ∈ defs,
      alookup (defs.map fun q => (q.1, (⟨cat, q.2.1, q.2.2⟩ : CommandDef))) p.1 =
        some ⟨cat, p.2.1, p.2.2⟩ := by
  induction defs with
  | nil => intro p hp; cases hp
  | cons hd tl ih =>
    intro p hp
    rcases List.mem_cons.mp hp with heq | hmem
    · subst heq
      simp [alookup]
    · have hne : hd.1 ≠ p.1 := by
        intro he
        rw [List.map_cons, List.nodup_cons] at hnd
        exact hnd.1 (he ▸ List.mem_map_of_mem Prod.fst hmem)
      rw [List.map_cons, List.nodup_cons] at hnd
      simp only [List.map_cons, alookup, if_neg hne]
      exact ih hnd.2 p hmem

theorem coalesceSteps_flatten (fuel cap : Nat) (l : List StateChangeRecord) :
    mergedChanges (coalesceSteps fuel cap l) = mergedChanges l := by
  induction fuel generalizing l with
  | zero => rfl
  | succ fuel ih =>
    cases l with
    | nil => rfl
    | cons r1 l2 =>
      cases l2 with
      | nil => rfl
      | cons r2 rest =>
        simp only [coalesceSteps]
        split
        · rw [ih]
          simp [mergedChanges, List.append_assoc]
        · rfl

theorem coalesceRecords_flatten (cap : Nat) (l : List StateChangeRecord) :
    mergedChanges (coalesceRecords cap l) = mergedChanges l :=
  coalesceSteps_flatten l.length cap l

theorem coalesceSteps_length (fuel cap : Nat) (l : List StateChangeRecord)
    (hfuel : l.length ≤ fuel + 1) :
    (coalesceSteps fuel cap l).length ≤ max cap 1 := by
  induction fuel generalizing l with
  | zero =>
    have h1 := le_max_right cap 1
    simp only [coalesceSteps]
    omega
  | succ fuel ih =>
    cases l with
    | nil =>
      have h1 := le_max_right cap 1
      simp only [coalesceSteps, List.length_nil]
      omega
    | cons r1 l2 =>
      cases l2 with
      | nil =>
        have h1 := le_max_right cap 1
        simp only [coalesceSteps, List.length_singleton]
        omega
      | cons r2 rest =>
        simp only [coalesceSteps]
        split
        · apply ih
          simp only [List.length_cons]
          simp only [List.length_cons] at hfuel
          omega
        · rename_i hle
          have h1 := le_max_left cap 1
          simp only [List.length_cons]
          simp only [not_lt] at hle
          omega

theorem coalesceRecords_length (cap : Nat) (l : List StateChangeRecord) :
    (coalesceRecords cap l).length ≤ max cap 1 :=
  coalesceSteps_length l.length cap l (by omega)

theorem notifyPropertiesUpdated_merged (q : StateChangeQueue) (t : Nat)
    (c : ValueMap) :
    mergedChanges (q.NotifyPropertiesUpdated t c).records =
      mergedChanges q.records ++ c := by
  simp only [StateChangeQueue.NotifyPropertiesUpdated]
  rw [coalesceRecords_flatten]
  simp [mergedChanges]

theorem runNotify_max (ops : List (Nat × ValueMap)) (q : StateChangeQueue) :
    (q.RunNotify ops).maxQueueSize = q.maxQueueSize := by
  induction ops generalizing q with
  | nil => rfl
  | cons op rest ih =>
    obtain ⟨t, c⟩ := op
    rw [StateChangeQueue.RunNotify, ih]
    rfl

theorem runNotify_merged (ops : List (Nat × ValueMap)) (q : StateChangeQueue) :
    mergedChanges (q.RunNotify ops).records =
      mergedChanges q.records ++ (ops.map Prod.snd).flatten := by
  induction ops generalizing q with
  | nil => simp [StateChangeQueue.RunNotify]
  | cons op rest ih =>
    obtain ⟨t, c⟩ := op
    rw [StateChangeQueue.RunNotify, ih, notifyPropertiesUpdated_merged]
    simp [List.append_assoc]

theorem runNotify_length (ops : List (Nat × ValueMap)) (q : StateChangeQueue)
    (hcap : 1 ≤ q.maxQueueSize) (hlen : q.records.length ≤ q.maxQueueSize) :
    (q.RunNotify ops).records.length ≤ q.maxQueueSize := by
  induction ops generalizing q with
  | nil => exact hlen
  | cons op rest ih =>
    obtain ⟨t, c⟩ := op
    rw [StateChangeQueue.RunNotify]
    have hstep :
        (q.NotifyPropertiesUpdated t c).records.length ≤ q.maxQueueSize := by
      have h1 := coalesceRecords_length q.maxQueueSize (q.records ++ [⟨t, c⟩])
      have h2 : max q.maxQueueSize 1 = q.maxQueueSize := Nat.max_eq_left hcap
      rw [h2] at h1
      exact h1
    exact ih (q.NotifyPropertiesUpdated t c) hcap hstep

theorem digitChar_toNat (d : Nat) (h : d < 10) :
    (Nat.digitChar d).toNat = 48 + d := by
  interval_cases d <;> rfl

theorem decValue_decCharsAux (fuel : Nat) :
    ∀ n, n ≤ fuel → decValue (decCharsAux fuel n) = n := by
  induction fuel with
  | zero =>
    intro n hn
    have : n = 0 := by omega
    subst this
    rfl
  | succ fuel ih =>
    intro n hn
    cases n with
    | zero => rfl
    | succ m =>
      simp only [decCharsAux, decValue]
      rw [ih ((m + 1) / 10)
        (by
          have := Nat.div_lt_self (Nat.succ_pos m) (show 1 < 10 by omega)
          omega)]
      rw [digitChar_toNat ((m + 1) % 10) (Nat.mod_lt _ (by omega))]
      omega

theorem decValue_decChars (n : Nat) : decValue (decChars n) = n :=
  decValue_decCharsAux n n (Nat.le_refl n)

theorem decChars_injective (m n : Nat) (h : decChars m = decChars n) : m = n := by
  have h1 := decValue_decChars m
  rw [h, decValue_decChars] at h1
  exact h1.symm

theorem natToDecimal_inj (m n : Nat) (hm : 1 ≤ m) (hn : 1 ≤ n)
    (h : natToDecimal m = natToDecimal n) : m = n := by
  rw [natToDecimal, natToDecimal, if_neg (by omega), if_neg (by omega)] at h
  have hdata : (decChars m).reverse = (decChars n).reverse :=
    congrArg String.data h
  exact decChars_injective m n (List.reverse_injective hdata)

theorem addCommand_cases (parse : String → Option Payload)
    (dict : CommandDictionary) (st : ManagerState) (j : String) :
    (∃ e, Manager.AddCommand parse dict st j = (st, .error e)) ∨
    (∃ inst : CommandInstance, Manager.AddCommand parse dict st j =
      ({ nextId := st.nextId + 1,
         commands := st.commands ++
           [{ inst with id := natToDecimal (st.nextId + 1) }] },
       .ok (natToDecimal (st.nextId + 1)))) := by
  cases hp : parse j with
  | none => exact Or.inl ⟨.parseError, by simp [Manager.AddCommand, hp]⟩
  | some p =>
    cases hf : CommandInstance.FromJson dict p with
    | error e => exact Or.inl ⟨e, by simp [Manager.AddCommand, hp, hf]⟩
    | ok inst => exact Or.inr ⟨inst, by simp [Manager.AddCommand, hp, hf]⟩

theorem runAddCommands_success_ids (parse : String → Option Payload)
    (dict : CommandDictionary) (jsons : List String) :
    ∀ (st : ManagerState),
      ∀ i ∈ successIds (Manager.RunAddCommands parse dict st jsons).2,
        ∃ k, st.nextId < k ∧ i = natToDecimal k := by
  induction jsons with
  | nil =>
    intro st i hi
    simp [Manager.RunAddCommands, successIds] at hi
  | cons j rest ih =>
    intro st i hi
    rcases addCommand_cases parse dict st j with ⟨e, he⟩ | ⟨inst, hin⟩
    · simp only [Manager.RunAddCommands, he, successIds,
        List.filterMap_cons] at hi
      exact ih st i hi
    · simp only [Manager.RunAddCommands, hin, successIds,
        List.filterMap_cons] at hi
      rcases List.mem_cons.mp hi with heq | hmem
      · exact ⟨st.nextId + 1, Nat.lt_succ_self _, heq⟩
      · obtain ⟨k, hk, hik⟩ := ih _ i hmem
        have hk2 : st.nextId + 1 < k := hk
        exact ⟨k, by omega, hik⟩

theorem runAddCommands_pairwise_ne (parse : String → Option Payload)
    (dict : CommandDictionary) (jsons : List String) :
    ∀ (st : ManagerState),
      (successIds
        (Manager.RunAddCommands parse dict st jsons).2).Pairwise (· ≠ ·) := by
  induction jsons with
  | nil =>
    intro st
    simp [Manager.RunAddCommands, successIds]
  | cons j rest ih =>
    intro st
    rcases addCommand_cases parse dict st j with ⟨e, he⟩ | ⟨inst, hin⟩
    · simp only [Manager.RunAddCommands, he, successIds, List.filterMap_cons]
      exact ih st
    · simp only [Manager.RunAddCommands, hin, successIds, List.filterMap_cons]
      rw [List.pairwise_cons]
      refine ⟨?_, ih _⟩
      intro i hi heq
      obtain ⟨k, hk, hik⟩ := runAddCommands_success_ids parse dict rest _ i hi
      rw [hik] at heq
      have hkk := natToDecimal_inj (st.nextId + 1) k (by omega) (by omega) heq
      have hk2 : st.nextId + 1 < k := hk
      omega

/-! ## Claim theorems -/

/-- C9: ConvertError produces a destination chain of the same length as the
source chain, each element preserving the corresponding source element's
domain, code and message, converting the innermost error first so the chain
order is preserved. -/
theorem c9_convert_error_preserves_chain (src : ChainedError) :
    optChain (ConvertError src none) = errorChain src
  ∧ (optChain (ConvertError src none)).length = (errorChain src).length
  ∧ ∀ dest, optChain (ConvertError src dest) = errorChain src ++ optChain dest := by
  have key : ∀ dest, optChain (ConvertError src dest) =
      errorChain src ++ optChain dest := by
    induction src with
    | leaf d c m =>
      intro dest
      simp [ConvertError, errorChain, optChain_ErrorAddTo]
    | wrap d c m inner ih =>
      intro dest
      simp [ConvertError, errorChain, optChain_ErrorAddTo, ih]
  have base : optChain (ConvertError src none) = errorChain src := by
    rw [key none]
    simp [optChain]
  exact ⟨base, by rw [base], key⟩

/-- C10: Manager::RegisterDevice replies with the invalid-arguments error
"String value expected" and never attempts registration when any parameter
value is not a string; registration is invoked exactly when every parameter
value is a string. -/
theorem c10_register_device_string_params
    (registerImpl : List (String × String) → String)
    (params : List (String × DBusVariant)) :
    ((∃ p ∈ params, p.2.IsStringCompatible = false) →
      Manager.RegisterDevice registerImpl params =
        { attempted := none, reply := .invalidArgs "String value expected" })
  ∧ ((∀ p ∈ params, p.2.IsStringCompatible = true) →
      (Manager.RegisterDevice registerImpl params).attempted =
        some (params.map fun p => (p.1, p.2.getString)))
  ∧ ((Manager.RegisterDevice registerImpl params).attempted.isSome ↔
      ∀ p ∈ params, p.2.IsStringCompatible = true) := by
  refine ⟨?_, ?_, ?_⟩
  · intro hex
    have hn : toStringParams params = none :=
      (toStringParams_eq_none_iff params).mpr hex
    simp [Manager.RegisterDevice, hn]
  · intro hall
    rw [Manager.RegisterDevice, toStringParams_all_strings params hall]
    by_cases h : registerImpl (params.map fun p => (p.1, p.2.getString)) ≠ "" <;>
      simp [h]
  · cases hsp : toStringParams params with
    | none =>
      have hatt : (Manager.RegisterDevice registerImpl params).attempted = none := by
        simp [Manager.RegisterDevice, hsp]
      rw [hatt]
      simp only [Option.isSome_none, Bool.false_eq_true, false_iff]
      intro hall
      obtain ⟨p, hp, hpc⟩ := (toStringParams_eq_none_iff params).mp hsp
      rw [hall p hp] at hpc
      exact Bool.noConfusion hpc
    | some sp =>
      have hns : ¬ ∃ p ∈ params, p.2.IsStringCompatible = false := by
        intro hex
        rw [(toStringParams_eq_none_iff params).mpr hex] at hsp
        exact Option.noConfusion hsp
      constructor
      · intro _ p hp
        by_cases hc : p.2.IsStringCompatible = true
        · exact hc
        · exact (hns ⟨p, hp, by simpa using hc⟩).elim
      · intro _
        by_cases h : registerImpl sp ≠ "" <;>
          simp [Manager.RegisterDevice, hsp, h]

/-- Witness for C10 at a concrete non-string parameter. -/
theorem c10_register_device_witness :
    Manager.RegisterDevice (fun _ => "dev1")
        [("ticket", DBusVariant.vint 7)] =
      { attempted := none, reply := .invalidArgs "String value expected" } :=
  (c10_register_device_string_params (fun _ => "dev1")
      [("ticket", DBusVariant.vint 7)]).1
    ⟨("ticket", DBusVariant.vint 7), by simp, rfl⟩

/-- C1: in a Manager::UpdateState batch, a per-property failure does not
abort the remaining updates (every successful SetPropertyValue is
committed: the final value of each property is its last valid write), the
reply is successful iff every property succeeded, and the aggregate error
names exactly the failed properties. -/
theorem c1_update_state_batch {α : Type} (valid : String → α → Bool)
    (m : PropMap α) (props : List (String × α)) :
    (∀ n, alookup (Manager.UpdateState valid m props).1 n =
      match lastValidWrite valid props n with
      | some v => some v
      | none => alookup m n)
  ∧ ((Manager.UpdateState valid m props).2 = .ok () ↔
      ∀ p ∈ props, valid p.1 p.2 = true)
  ∧ (∀ errs, (Manager.UpdateState valid m props).2 = .error errs →
      errs = (props.filter fun p => !valid p.1 p.2).map Prod.fst) := by
  refine ⟨?_, ?_, ?_⟩
  · intro n
    rw [show (Manager.UpdateState valid m props).1 =
        (updateStateLoop valid m props).1 by rfl]
    exact updateStateLoop_lookup valid props m n
  · have hiff : (updateStateLoop valid m props).2 = [] ↔
        ∀ p ∈ props, valid p.1 p.2 = true := by
      rw [updateStateLoop_failed, List.map_eq_nil_iff, List.filter_eq_nil_iff]
      constructor
      · intro h p hp
        simpa using h p hp
      · intro h p hp
        simp [h p hp]
    rw [show (Manager.UpdateState valid m props).2 =
        (if (updateStateLoop valid m props).2.isEmpty then .ok ()
         else .error (updateStateLoop valid m props).2) by rfl]
    by_cases hl : (updateStateLoop valid m props).2.isEmpty
    · rw [if_pos hl]
      exact iff_of_true rfl (hiff.mp (List.isEmpty_iff.mp hl))
    · rw [if_neg hl]
      apply iff_of_false
      · exact fun hcon => Except.noConfusion hcon
      · intro hall
        exact hl (by simp [List.isEmpty_iff, hiff.mpr hall])
  · intro errs herr
    rw [show (Manager.UpdateState valid m props).2 =
        (if (updateStateLoop valid m props).2.isEmpty then .ok ()
         else .error (updateStateLoop valid m props).2) by rfl] at herr
    by_cases hempty : (updateStateLoop valid m props).2.isEmpty
    · rw [if_pos hempty] at herr
      exact Except.noConfusion herr
    · rw [if_neg hempty] at herr
      have h2 : (updateStateLoop valid m props).2 = errs := by
        injection herr with h3
      rw [← h2]
      exact updateStateLoop_failed valid props m

/-- Witness for C1: third property still committed after the second fails. -/
theorem c1_update_state_witness :
    alookup (Manager.UpdateState (fun n _ => n ≠ "bad") ([] : PropMap Int)
      [("a", 1), ("bad", 2), ("b", 3)]).1 "b" = some 3 := by
  have h := (c1_update_state_batch (fun n _ => n ≠ "bad")
    ([] : PropMap Int) [("a", 1), ("bad", 2), ("b", 3)]).1 "b"
  rw [h]
  decide

/-- C3: once a CommandInstance is in a terminal state (Done, Aborted,
Cancelled, Error), every SetProgress, Complete, Abort or Cancel call fails
with InvalidStateError and the instance is unchanged. -/
theorem c3_terminal_states_sticky (c : CommandInstance)
    (h : c.state.IsTerminal = true) (p res : ValueMap)
    (schema : ObjectSchema) (code msg : String) :
    c.SetProgress p = (c, some .invalidStateError)
  ∧ c.Complete schema res = (c, some .invalidStateError)
  ∧ c.Abort code msg = (c, some .invalidStateError)
  ∧ c.Cancel = (c, some .invalidStateError) := by
  have hni : ¬ (c.state = .inProgress ∨ c.state = .paused) := by
    cases hs : c.state <;> simp_all [CmdState.IsTerminal]
  refine ⟨?_, ?_, ?_, ?_⟩ <;>
    simp [CommandInstance.SetProgress, CommandInstance.Complete,
      CommandInstance.Abort, CommandInstance.Cancel, h, hni]

/-- Witness for C3 at a concrete Done instance. -/
theorem c3_terminal_states_witness :
    CommandInstance.Cancel
      { id := "1", name := "robot.jump", component := "comp",
        origin := .originLocal, parameters := [], progress := [],
        results := [], state := .done, errorInfo := none } =
      ({ id := "1", name := "robot.jump", component := "comp",
         origin := .originLocal, parameters := [], progress := [],
         results := [], state := .done, errorInfo := none },
       some .invalidStateError) :=
  (c3_terminal_states_sticky
      { id := "1", name := "robot.jump", component := "comp",
        origin := .originLocal, parameters := [], progress := [],
        results := [], state := .done, errorInfo := none }
      (by decide) [] [] [] "c" "m").2.2.2

/-- C5: Complete succeeds exactly from InProgress/Paused with results
satisfying the result schema; on success the state becomes Done with the
results frozen; a validation failure returns ValidationError with the
instance unchanged; Complete of the empty object against a schema requiring
a numeric distance fails and the state remains InProgress. -/
theorem c5_complete_semantics (c : CommandInstance) (schema : ObjectSchema)
    (res : ValueMap) :
    ((c.Complete schema res).2 = none ↔
      (c.state = .inProgress ∨ c.state = .paused) ∧ schema.Validate res = none)
  ∧ ((c.Complete schema res).2 = none →
      (c.Complete schema res).1.state = .done ∧
      (c.Complete schema res).1.results = res)
  ∧ (∀ path, schema.Validate res = some path →
      (c.state = .inProgress ∨ c.state = .paused) →
      c.Complete schema res = (c, some (.validationError path)))
  ∧ (CommandInstance.Complete
      { id := "1", name := "robot.jump", component := "comp",
        origin := .originLocal, parameters := [], progress := [],
        results := [], state := .inProgress, errorInfo := none }
      [("distance", .tNum)] [] =
      ({ id := "1", name := "robot.jump", component := "comp",
         origin := .originLocal, parameters := [], progress := [],
         results := [], state := .inProgress, errorInfo := none },
       some (.validationError "distance"))) := by
  refine ⟨?_, ?_, ?_, by decide⟩
  · by_cases hst : c.state = .inProgress ∨ c.state = .paused
    · cases hv : schema.Validate res <;>
        simp [CommandInstance.Complete, hst, hv]
    · simp [CommandInstance.Complete, hst]
  · intro hok
    by_cases hst : c.state = .inProgress ∨ c.state = .paused
    · cases hv : schema.Validate res with
      | none => simp [CommandInstance.Complete, hst, hv]
      | some path => simp [CommandInstance.Complete, hst, hv] at hok
    · simp [CommandInstance.Complete, hst] at hok
  · intro path hv hst
    simp [CommandInstance.Complete, hst, hv]

/-- Witness for C5: the validation-failure branch at the concrete
robot.jump scenario. -/
theorem c5_complete_witness :
    CommandInstance.Complete
      { id := "1", name := "robot.jump", component := "comp",
        origin := .originLocal, parameters := [], progress := [],
        results := [], state := .inProgress, errorInfo := none }
      [("distance", .tNum)] [] =
      ({ id := "1", name := "robot.jump", component := "comp",
         origin := .originLocal, parameters := [], progress := [],
         results := [], state := .inProgress, errorInfo := none },
       some (.validationError "distance")) :=
  (c5_complete_semantics
      { id := "1", name := "robot.jump", component := "comp",
        origin := .originLocal, parameters := [], progress := [],
        results := [], state := .inProgress, errorInfo := none }
      [("distance", .tNum)] []).2.2.1 "distance" (by decide) (Or.inl rfl)

/-- C4: constructing a command from a payload is all-or-nothing: any parse
or validation failure replies with the error and leaves the live command set
and the id counter untouched; only on success is an instance constructed in
Queued state, assigned the next id, and added to the live set. -/
theorem c4_add_command_all_or_nothing (parse : String → Option Payload)
    (dict : CommandDictionary) (st : ManagerState) (json : String) :
    (∀ e, (Manager.AddCommand parse dict st json).2 = .error e →
      (Manager.AddCommand parse dict st json).1 = st)
  ∧ (parse json = none →
      (Manager.AddCommand parse dict st json).2 = .error .parseError)
  ∧ (∀ p e, parse json = some p → CommandInstance.FromJson dict p = .error e →
      (Manager.AddCommand parse dict st json).2 = .error e)
  ∧ (∀ p inst, CommandInstance.FromJson dict p = .ok inst →
      inst.state = .queued)
  ∧ (∀ i, (Manager.AddCommand parse dict st json).2 = .ok i →
      ∃ p inst, parse json = some p ∧
        CommandInstance.FromJson dict p = .ok inst ∧
        i = natToDecimal (st.nextId + 1) ∧
        (Manager.AddCommand parse dict st json).1 =
          { nextId := st.nextId + 1,
            commands := st.commands ++ [{ inst with id := i }] }) := by
  refine ⟨?_, ?_, ?_, ?_, ?_⟩
  · intro e he
    cases hp : parse json with
    | none => simp [Manager.AddCommand, hp]
    | some p =>
      cases hf : CommandInstance.FromJson dict p with
      | error e2 => simp [Manager.AddCommand, hp, hf]
      | ok inst => simp [Manager.AddCommand, hp, hf] at he
  · intro hp
    simp [Manager.AddCommand, hp]
  · intro p e hp hf
    simp [Manager.AddCommand, hp, hf]
  · intro p inst hok
    cases hfc : dict.FindCommand p.name with
    | none => simp [CommandInstance.FromJson, hfc] at hok
    | some cd =>
      cases hv : cd.parameters.Validate p.parameters with
      | some path => simp [CommandInstance.FromJson, hfc, hv] at hok
      | none =>
        have hok2 : CommandInstance.FromJson dict p = .ok
            { id := "", name := p.name, component := p.component,
              origin := p.origin, parameters := p.parameters,
              progress := [], results := [], state := .queued,
              errorInfo := none } := by
          simp [CommandInstance.FromJson, hfc, hv]
        rw [hok2] at hok
        injection hok with h2
        rw [← h2]
  · intro i hok
    cases hp : parse json with
    | none => simp [Manager.AddCommand, hp] at hok
    | some p =>
      cases hf : CommandInstance.FromJson dict p with
      | error e => simp [Manager.AddCommand, hp, hf] at hok
      | ok inst =>
        have hr : Manager.AddCommand parse dict st json =
            ({ nextId := st.nextId + 1,
               commands := st.commands ++
                 [{ inst with id := natToDecimal (st.nextId + 1) }] },
             .ok (natToDecimal (st.nextId + 1))) := by
          simp [Manager.AddCommand, hp, hf]
        rw [hr] at hok
        injection hok with h2
        refine ⟨p, inst, rfl, hf, h2.symm, ?_⟩
        rw [hr, ← h2]

/-- Witness for C4: a parse failure replies with ParseError. -/
theorem c4_add_command_witness :
    (Manager.AddCommand (fun _ => none) []
      { nextId := 0, commands := [] } "x").2 = .error .parseError :=
  (c4_add_command_all_or_nothing (fun _ => none) []
    { nextId := 0, commands := [] } "x").2.1 rfl

/-- C6: a dictionary mutation (category load or removal) invokes the
registered change callback exactly once per logical change, only after the
mutation is fully applied, and the observed dictionary is the final,
internally consistent one (unique names); a failed load is no change and
fires no callback. -/
theorem c6_change_callback_once (d : CommandDictionary) (cat : String)
    (defs : CategoryDefs) (hd : (d.map Prod.fst).Nodup) :
    (∀ d2, d.LoadCommands cat defs = .ok d2 →
      CommandManager.LoadCommandsNotify d cat defs = (.ok d2, [d2]) ∧
      (d2.map Prod.fst).Nodup)
  ∧ (∀ e, d.LoadCommands cat defs = .error e →
      CommandManager.LoadCommandsNotify d cat defs = (.error e, []))
  ∧ CommandManager.RemoveCategoryNotify d cat =
      (d.RemoveCategory cat, [d.RemoveCategory cat])
  ∧ ((d.RemoveCategory cat).map Prod.fst).Nodup := by
  refine ⟨?_, ?_, rfl, ?_⟩
  · intro d2 h
    exact ⟨by simp [CommandManager.LoadCommandsNotify, h],
      loadCommands_ok_nodup d cat defs hd d2 h⟩
  · intro e h
    simp [CommandManager.LoadCommandsNotify, h]
  · exact List.Nodup.sublist (List.Sublist.map Prod.fst (List.filter_sublist d)) hd

/-- Witness for C6: a successful load of one category fires exactly one
callback carrying the fully applied dictionary. -/
theorem c6_change_callback_witness :
    CommandManager.LoadCommandsNotify [] "base" [("robot.jump", [], [])] =
      (.ok [("robot.jump", ⟨"base", [], []⟩)],
       [[("robot.jump", ⟨"base", [], []⟩)]]) :=
  ((c6_change_callback_once [] "base" [("robot.jump", [], [])] (by decide)).1
    [("robot.jump", ⟨"base", [], []⟩)] rfl).1

/-- C7: Startup loads the built-in (base) category first and the
test/override category second; override commands with fresh names load
successfully alongside the base ones, while a name duplicating one already
registered in another category is a hard failure. -/
theorem c7_startup_order_and_duplicates (baseDefs testDefs : CategoryDefs)
    (hb : (baseDefs.map Prod.fst).Nodup) (ht : (testDefs.map Prod.fst).Nodup) :
    ((∀ p ∈ testDefs, p.1 ∉ baseDefs.map Prod.fst) →
      ∃ d, CommandManager.Startup baseDefs testDefs = .ok d ∧
        (∀ p ∈ baseDefs, d.FindCommand p.1 = some ⟨"base", p.2.1, p.2.2⟩) ∧
        (∀ p ∈ testDefs, d.FindCommand p.1 = some ⟨"test", p.2.1, p.2.2⟩))
  ∧ ((∃ p ∈ testDefs, p.1 ∈ baseDefs.map Prod.fst) →
      CommandManager.Startup baseDefs testDefs = .error .duplicateNameError) := by
  have h1 : CommandDictionary.LoadCommands [] "base" baseDefs =
      .ok (baseDefs.map fun q => (q.1, (⟨"base", q.2.1, q.2.2⟩ : CommandDef))) := by
    simp only [CommandDictionary.LoadCommands]
    rw [if_pos ⟨hb, fun p _ => rfl⟩]
    rfl
  have hkept :
      ((baseDefs.map fun q =>
          (q.1, (⟨"base", q.2.1, q.2.2⟩ : CommandDef))).filter
        fun p => p.2.category ≠ "test") =
      baseDefs.map fun q => (q.1, (⟨"base", q.2.1, q.2.2⟩ : CommandDef)) := by
    rw [List.filter_eq_self]
    intro a ha
    obtain ⟨q, hq, hqa⟩ := List.mem_map.mp ha
    rw [← hqa]
    simp
  have hnames :
      ((baseDefs.map fun q =>
          (q.1, (⟨"base", q.2.1, q.2.2⟩ : CommandDef))).map Prod.fst) =
      baseDefs.map Prod.fst := by
    rw [List.map_map]
    rfl
  have hstart : CommandManager.Startup baseDefs testDefs =
      CommandDictionary.LoadCommands
        (baseDefs.map fun q => (q.1, (⟨"base", q.2.1, q.2.2⟩ : CommandDef)))
        "test" testDefs := by
    simp only [CommandManager.Startup, h1]
  constructor
  · intro hdisj
    have hnonetest : ∀ p ∈ testDefs,
        alookup (baseDefs.map fun q =>
          (q.1, (⟨"base", q.2.1, q.2.2⟩ : CommandDef))) p.1 = none := by
      intro p hp
      rw [alookup_eq_none_iff, hnames]
      exact hdisj p hp
    refine ⟨(baseDefs.map fun q => (q.1, ⟨"base", q.2.1, q.2.2⟩)) ++
        (testDefs.map fun q => (q.1, ⟨"test", q.2.1, q.2.2⟩)), ?_, ?_, ?_⟩
    · rw [hstart]
      simp only [CommandDictionary.LoadCommands, hkept]
      rw [if_pos ⟨ht, hnonetest⟩]
    · intro p hp
      rw [CommandDictionary.FindCommand, alookup_append,
        alookup_mapped_defs "base" baseDefs hb p hp]
    · intro p hp
      have hnone : alookup
          (baseDefs.map fun q => (q.1, (⟨"base", q.2.1, q.2.2⟩ : CommandDef)))
          p.1 = none := by
        rw [alookup_eq_none_iff, hnames]
        exact hdisj p hp
      rw [CommandDictionary.FindCommand, alookup_append, hnone,
        alookup_mapped_defs "test" testDefs ht p hp]
  · intro hdup
    obtain ⟨p, hp, hpb⟩ := hdup
    rw [hstart]
    simp only [CommandDictionary.LoadCommands, hkept]
    rw [if_neg]
    intro hc
    have := hc.2 p hp
    rw [alookup_eq_none_iff, hnames] at this
    exact this hpb

/-- Witness for C7: registering the same name in the override category as in
the base category fails. -/
theorem c7_startup_witness :
    CommandManager.Startup [("robot.jump", [], [])] [("robot.jump", [], [])] =
      .error .duplicateNameError :=
  (c7_startup_order_and_duplicates [("robot.jump", [], [])]
      [("robot.jump", [], [])] (by decide) (by decide)).2
    ⟨("robot.jump", [], []), by simp, by simp⟩

/-- C2: the StateChangeQueue never holds more records than its configured
capacity (default 100, kMaxStateChangeQueueSize), and after any drain the
per-property last-writer-wins merge of the drained records equals the last
value written for every property since the previous drain; in particular
with capacity 2, appending a:1, b:2, a:3 and draining yields merged latest
state a:3, b:2 within the capacity bound. -/
theorem c2_state_change_queue_bounded_lossless (cap : Nat) (hcap : 1 ≤ cap)
    (ops : List (Nat × ValueMap)) :
    kMaxStateChangeQueueSize = 100
  ∧ ((emptyQueue cap).RunNotify ops).records.length ≤ cap
  ∧ (∀ n, mergedLookup ((emptyQueue cap).RunNotify ops).GetAllChanges.1 n =
      lastLookup (ops.map Prod.snd).flatten n)
  ∧ ((emptyQueue cap).RunNotify ops).GetAllChanges.2.records = []
  ∧ (mergedLookup ((emptyQueue 2).RunNotify
        [(1, [("a", JVal.jint 1)]), (2, [("b", JVal.jint 2)]),
         (3, [("a", JVal.jint 3)])]).GetAllChanges.1 "a" = some (JVal.jint 3)
    ∧ mergedLookup ((emptyQueue 2).RunNotify
        [(1, [("a", JVal.jint 1)]), (2, [("b", JVal.jint 2)]),
         (3, [("a", JVal.jint 3)])]).GetAllChanges.1 "b" = some (JVal.jint 2)
    ∧ ((emptyQueue 2).RunNotify
        [(1, [("a", JVal.jint 1)]), (2, [("b", JVal.jint 2)]),
         (3, [("a", JVal.jint 3)])]).GetAllChanges.1.length ≤ 2) := by
  refine ⟨rfl, ?_, ?_, rfl, by decide, by decide, by decide⟩
  · exact runNotify_length ops (emptyQueue cap) hcap (by simp [emptyQueue])
  · intro n
    simp only [mergedLookup, StateChangeQueue.GetAllChanges]
    rw [runNotify_merged]
    simp [mergedChanges, emptyQueue]

/-- Witness for C2 at capacity 2 with the a:1, b:2, a:3 scenario. -/
theorem c2_state_change_queue_witness :
    1 ≤ 2 ∧ ((emptyQueue 2).RunNotify
      [(1, [("a", JVal.jint 1)]), (2, [("b", JVal.jint 2)]),
       (3, [("a", JVal.jint 3)])]).records.length ≤ 2 :=
  ⟨by decide, (c2_state_change_queue_bounded_lossless 2 (by decide)
      [(1, [("a", JVal.jint 1)]), (2, [("b", JVal.jint 2)]),
       (3, [("a", JVal.jint 3)])]).2.1⟩

/-- C8: across any sequence of Manager::AddCommand calls, the ids assigned
by the successful calls are pairwise distinct, and a failed call leaves the
manager state (in particular the id counter) unchanged, never consuming an
id. -/
theorem c8_unique_command_ids (parse : String → Option Payload)
    (dict : CommandDictionary) (st : ManagerState) (jsons : List String)
    (json : String) :
    (successIds
      (Manager.RunAddCommands parse dict st jsons).2).Pairwise (· ≠ ·)
  ∧ (∀ e, (Manager.AddCommand parse dict st json).2 = .error e →
      (Manager.AddCommand parse dict st json).1 = st) := by
  refine ⟨runAddCommands_pairwise_ne parse dict jsons st, ?_⟩
  intro e he
  rcases addCommand_cases parse dict st json with ⟨e2, he2⟩ | ⟨inst, hin⟩
  · rw [he2]
  · rw [hin] at he
    exact Except.noConfusion he

/-- Witness for C8: a failed AddCommand leaves the id counter at 5. -/
theorem c8_unique_command_ids_witness :
    (Manager.AddCommand (fun _ => none) []
      { nextId := 5, commands := [] } "z").1 =
      { nextId := 5, commands := [] } :=
  (c8_unique_command_ids (fun _ => none) [] { nextId := 5, commands := [] }
    [] "z").2 .parseError rfl

end Buffet
